import Mathlib

/-!
# Shallow embedding of `runtime-abi-check` (`src/runtime-abi-check/store.go`)

The Go program statically simulates dynamic-linker symbol binding: it walks the
imported-library graph of an ELF file depth-first, records each visited
library's exported dynamic symbols into a per-machine symbol store, and then
resolves every imported symbol of each scanned file against that store.

Embedding conventions:
* `elf.Machine` is a `Nat`; symbol names, sonames and paths are `String`s.
* Go's nested maps `map[elf.Machine]map[string]map[string]bool` become nested
  association lists (`alistGet` / `alistSet` model map read / write; an inner
  `map[string]bool` is the list of keys whose value is `true`, i.e. a set).
  Go map iteration order is unspecified; the program only ever uses iteration
  to test existence, which is order-independent.
* The ELF parser (`debug/elf`) is the external Binary Reader: an `ELFData`
  record carries exactly what the program reads from it (machine,
  imported libraries, dynamic symbols, imported symbols).  The filesystem is a
  finite association list from path to entry; `os.Stat` succeeding is presence,
  `elf.Open` succeeding is an `Entry.elfFile` entry.
* The unbounded Go recursion `scanELF` is embedded with explicit fuel:
  `none` means the fuel ran out (the Go program would still be recursing),
  `some r` means the Go program returns `r` (a value or an error).
* The `SymbolStore` struct carries the symbol map and the search-directory
  list; they are passed as two separate arguments (`s : Symbols`,
  `dirs : List String`) since only the former is ever mutated.
-/

namespace RuntimeAbiCheck

/-- A symbol imported by a file: a name plus the optional owning-library hint
(`elf.ImportedSymbol`; the empty string means "no hint", as in Go). -/
structure ImportedSymbol where
  name : String
  library : String
deriving DecidableEq, Repr

/-- What the Binary Reader (`debug/elf`) yields for one parsed file:
`FileHeader.Machine`, `ImportedLibraries()`, `DynamicSymbols()` (names of the
exported dynamic symbols) and `ImportedSymbols()`. -/
structure ELFData where
  machine : Nat
  importedLibraries : List String
  dynamicSymbols : List String
  importedSymbols : List ImportedSymbol
deriving DecidableEq, Repr

/-- An inner `map[string]bool`: the set of keys mapped to `true`. -/
abbrev Bucket := List String

/-- A `map[string]map[string]bool`: library name → export bucket. -/
abbrev Partition := List (String × Bucket)

/-- The `symbols` field of `SymbolStore`:
`map[elf.Machine]map[string]map[string]bool`. -/
abbrev Symbols := List (Nat × Partition)

/-- Go map read `m[k]` (with the `ok` flag): first binding of `k`. -/
def alistGet {α β : Type} [DecidableEq α] : List (α × β) → α → Option β
  | [], _ => none
  | (a, b) :: t, k => if a = k then some b else alistGet t k

/-- Go map write `m[k] = v`: overwrite the binding of `k`, or append it. -/
def alistSet {α β : Type} [DecidableEq α] : List (α × β) → α → β → List (α × β)
  | [], k, v => [(k, v)]
  | (a, b) :: t, k, v => if a = k then (k, v) :: t else (a, b) :: alistSet t k v

/-- The `systemLibraries` list installed by `NewSymbolStore`. -/
def defaultSystemLibraries : List String :=
  ["/usr/lib64", "/usr/lib", "/usr/lib/x86_64-linux-gnu",
   "/usr/lib/i386-linux-gnu", "/usr/lib32"]

/-- Constructor `NewSymbolStore` starts from an empty symbol map. -/
def NewSymbolStore : Symbols := []

/-- Predicate `hasLibrary`: have we already recorded this library for this machine?
Transliterates `store.go` lines 115–124. -/
def hasLibrary (s : Symbols) (name : String) (m : Nat) : Bool :=
  match alistGet s m with
  | none => false
  | some mp => (alistGet mp name).isSome

/-- Look a bucket up through both map levels (`s.symbols[m][name]`). -/
def lookupBucket (s : Symbols) (m : Nat) (name : String) : Option Bucket :=
  match alistGet s m with
  | none => none
  | some mp => alistGet mp name

/-- Set-insert into an inner `map[string]bool` (`b[x] = true`). -/
def insertName (b : Bucket) (x : String) : Bucket :=
  if x ∈ b then b else b ++ [x]

/-- Method `storeSymbol`: `s.symbols[file.Machine][name][sym.Name] = true`
(`store.go` lines 134–136).  In Go a missing machine partition or bucket would
make this write panic on a nil map; `scanELF` always creates both first, so
the fall-through branches returning `s` unchanged are unreachable in context. -/
def storeSymbol (s : Symbols) (m : Nat) (name : String) (symName : String) : Symbols :=
  match alistGet s m with
  | none => s
  | some mp =>
    match alistGet mp name with
    | none => s
    | some b => alistSet s m (alistSet mp name (insertName b symName))

/-- The outcome of one `resolveSymbol` call, tagged by which `return`
statement (equivalently, which stderr diagnostic) was taken
(`store.go` lines 138–166). -/
inductive ResolveResult where
  /-- some bucket contained the name; `return true` -/
  | resolved
  /-- stderr "No provider found for machine: %v" -/
  | noProviderForMachine
  /-- stderr "Unknown library '%s'" (the owning-library hint was never recorded) -/
  | unknownLibrary
  /-- stderr "Unknown symbol for library '%s': %s" (hinted bucket lacks the name) -/
  | unknownSymbol
  /-- unhinted search fell through every bucket; `return false` silently -/
  | notFound
deriving DecidableEq, Repr

/-- Function `resolveSymbol`, refined to report which branch produced the boolean
(`store.go` lines 138–166).  The unhinted loop ranges over the machine's
partition; only existence of a bucket containing the name matters, so the
unspecified Go map order is irrelevant to the result. -/
def resolveSymbolR (s : Symbols) (m : Nat) (sym : ImportedSymbol) : ResolveResult :=
  match alistGet s m with
  | none => .noProviderForMachine
  | some bucket =>
    if sym.library ≠ "" then
      match alistGet bucket sym.library with
      | none => .unknownLibrary
      | some lib => if sym.name ∈ lib then .resolved else .unknownSymbol
    else
      if bucket.any (fun p => decide (sym.name ∈ p.2)) then .resolved else .notFound

/-- The actual boolean return value of `resolveSymbol`. -/
def resolveSymbol (s : Symbols) (m : Nat) (sym : ImportedSymbol) : Bool :=
  match resolveSymbolR s m sym with
  | .resolved => true
  | _ => false

/-! ## Filesystem model and the Library Locator -/

/-- What `os.Stat` / `elf.Open` can find at one path. -/
inductive Entry where
  /-- a regular file that `elf.Open` parses, yielding this data -/
  | elfFile (d : ELFData)
  /-- a regular file on which `elf.Open` fails (not a valid ELF) -/
  | notELF
  /-- Go `os.Stat` succeeds but the mode is not regular (directory, device, …) -/
  | notRegular
deriving DecidableEq, Repr

/-- The filesystem visible to the run: path → entry; absent means `os.Stat`
fails. -/
abbrev FS := List (String × Entry)

/-- Go `filepath.Join(dir, file)` for a clean absolute `dir` and a relative
`file`, the only shapes the program builds. -/
def joinPath (dir file : String) : String := dir ++ "/" ++ file

/-- Go `filepath.Base`, on the character list: drop trailing separators, then
keep the suffix after the last separator ("" → ".", all-separators → "/"). -/
def baseNameAux (cs : List Char) : List Char :=
  if cs = [] then ['.']
  else
    let r := cs.reverse.dropWhile (fun c => c = '/')
    if r = [] then ['/']
    else (r.takeWhile (fun c => ¬ c = '/')).reverse

/-- Go `filepath.Base(path)`. -/
def baseName (path : String) : String := String.mk (baseNameAux path.data)

/-- Does `os.Stat` succeed with a regular mode at this path? -/
def statRegular (fs : FS) (p : String) : Bool :=
  match alistGet fs p with
  | some (.elfFile _) => true
  | some .notELF => true
  | some .notRegular => false
  | none => false

/-- Result of `elf.Open(p)`: the parsed data, or `none` on any failure. -/
def elfOpen (fs : FS) (p : String) : Option ELFData :=
  match alistGet fs p with
  | some (.elfFile d) => some d
  | _ => none

/-- Method `locateLibraryPaths` (`store.go` lines 56–77): join each configured
directory with the soname and keep, in order, the candidates that stat as
regular files. -/
def locateLibraryPaths (fs : FS) (searchPath : List String) (library : String) :
    List String :=
  match searchPath with
  | [] => []
  | p :: rest =>
    let fullPath := joinPath p library
    if statRegular fs fullPath then
      fullPath :: locateLibraryPaths fs rest library
    else
      locateLibraryPaths fs rest library

/-- The errors the scan can return (`fmt.Errorf` values in `store.go`).
External Binary Reader errors (`elf.Open`, `ImportedLibraries()`, …) are out
of scope: the reader is modelled as total on `ELFData`. -/
inductive ScanError where
  /-- Error "failed to locate: %v" — no directory held a same-machine regular ELF -/
  | failedToLocate (library : String)
  /-- Error "failed to resolve symbol: %s" — `resolveSymbol` returned false -/
  | failedToResolveSymbol (name : String)
  /-- the `elf.Open` error `ScanPath` propagates when the root file itself
  does not parse (the spec's `ParseError`) -/
  | parseError (path : String)
deriving DecidableEq, Repr

/-- The trial loop inside `locateLibrary`: open each stat-regular candidate,
skip it if `elf.Open` fails or the machine differs, accept the first match. -/
def locateFrom (fs : FS) (inputFile : ELFData) (library : String) :
    List String → Except ScanError (ELFData × String)
  | [] => .error (.failedToLocate library)
  | p :: rest =>
    match elfOpen fs p with
    | none => locateFrom fs inputFile library rest
    | some test =>
      if test.machine ≠ inputFile.machine then locateFrom fs inputFile library rest
      else .ok (test, p)

/-- Method `locateLibrary` (`store.go` lines 80–97): first same-machine regular ELF
among the joined candidates, else the "failed to locate" error. -/
def locateLibrary (fs : FS) (dirs : List String) (library : String)
    (inputFile : ELFData) : Except ScanError (ELFData × String) :=
  locateFrom fs inputFile library (locateLibraryPaths fs dirs library)

/-! ## The Resolution Engine (`scanELF`) -/

/-- Create the machine partition if absent (`store.go` lines 178–181). -/
def ensureMachine (s : Symbols) (m : Nat) : Symbols :=
  match alistGet s m with
  | none => alistSet s m []
  | some _ => s

/-- Create (or reset) the file's bucket (`store.go` lines 189–191; executed
only when the file exports at least one symbol). -/
def initBucket (s : Symbols) (m : Nat) (name : String) : Symbols :=
  match alistGet s m with
  | none => s
  | some mp => alistSet s m (alistSet mp name [])

/-- The store-population prefix of `scanELF` (`store.go` lines 178–197):
ensure the machine partition, create the bucket when there is at least one
exported symbol, then `storeSymbol` every exported name. -/
def recordFile (s : Symbols) (m : Nat) (name : String) (syms : List String) : Symbols :=
  let s1 := ensureMachine s m
  let s2 := if syms.length > 0 then initBucket s1 m name else s1
  syms.foldl (fun acc symName => storeSymbol acc m name symName) s2

/-- The symbol-resolution suffix of `scanELF` (`store.go` lines 227–232):
resolve each imported symbol in order; the first failure returns the
"failed to resolve symbol" error at once. -/
def resolveAll (s : Symbols) (m : Nat) : List ImportedSymbol → Except ScanError Unit
  | [] => .ok ()
  | sym :: rest =>
    if resolveSymbol s m sym then resolveAll s m rest
    else .error (.failedToResolveSymbol sym.name)

/-- The imported-library loop of `scanELF` (`store.go` lines 200–216):
skip a library already recorded for this machine, otherwise locate it
(propagating the locate error) and recurse (`scan`) into it before moving to
the next import.  `scan` is `scanELF` at one less fuel. -/
def scanLibs (scan : String → ELFData → Symbols → Option (Except ScanError Symbols))
    (fs : FS) (dirs : List String) (file : ELFData) :
    List String → Symbols → Option (Except ScanError Symbols)
  | [], s => some (.ok s)
  | l :: rest, s =>
    if hasLibrary s l file.machine then scanLibs scan fs dirs file rest s
    else
      match locateLibrary fs dirs l file with
      | .error e => some (.error e)
      | .ok (lib, libPath) =>
        match scan libPath lib s with
        | none => none
        | some (.error e) => some (.error e)
        | some (.ok s') => scanLibs scan fs dirs file rest s'

/-- Method `scanELF` (`store.go` lines 169–235), with fuel standing in for the
unbounded Go recursion (`none` = still recursing after `fuel` nested calls):
record this file's exports under `baseName path`, depth-first scan every
imported library, and only then resolve this file's own imported symbols,
returning the store on success. -/
def scanELF (fs : FS) (dirs : List String) :
    Nat → String → ELFData → Symbols → Option (Except ScanError Symbols)
  | 0, _, _, _ => none
  | fuel + 1, path, file, s =>
    let name := baseName path
    let s1 := recordFile s file.machine name file.dynamicSymbols
    match scanLibs (scanELF fs dirs fuel) fs dirs file file.importedLibraries s1 with
    | none => none
    | some (.error e) => some (.error e)
    | some (.ok s2) =>
      match resolveAll s2 file.machine file.importedSymbols with
      | .error e => some (.error e)
      | .ok _ => some (.ok s2)

/-- Method `ScanPath` (`store.go` lines 100–111): open the root file and scan it,
starting (as `main` does through `NewSymbolStore`) from the given store. -/
def ScanPath (fs : FS) (dirs : List String) (fuel : Nat) (s : Symbols)
    (path : String) : Option (Except ScanError Symbols) :=
  match elfOpen fs path with
  | none => some (.error (.parseError path))
  | some file => scanELF fs dirs fuel path file s

/-! ## Derived notions used by the verification -/

/-- Does the machine partition exist (possibly empty)?  This is the guard of
the "No provider found for machine" branch of `resolveSymbol`. -/
def machineHas (s : Symbols) (m : Nat) : Bool := (alistGet s m).isSome

/-- A well-formed soname: nonempty and without a path separator, so that the
basename of any located candidate `dir/soname` is the soname itself. -/
def validSoname (l : String) : Prop := l ≠ "" ∧ '/' ∉ l.data

instance (l : String) : Decidable (validSoname l) := by
  unfold validSoname; infer_instance

/-- One filesystem entry as the termination analysis needs it: every ELF file
on disk exports at least one symbol and declares only well-formed sonames. -/
def entryOK : Entry → Prop
  | .elfFile d => d.dynamicSymbols ≠ [] ∧ ∀ l ∈ d.importedLibraries, validSoname l
  | .notELF => True
  | .notRegular => True

instance (e : Entry) : Decidable (entryOK e) := by
  cases e <;> (unfold entryOK; infer_instance)

/-- Every ELF file in the filesystem satisfies `entryOK`. -/
def goodFS (fs : FS) : Prop := ∀ pe ∈ fs, entryOK pe.2

instance (fs : FS) : Decidable (goodFS fs) := by
  unfold goodFS; infer_instance

/-- The basenames of the ELF files on disk: every identity the walk can ever
record while recursing is drawn from this list. -/
def fsBaseNames (fs : FS) : List String :=
  fs.filterMap (fun pe => match pe.2 with
    | .elfFile _ => some (baseName pe.1)
    | _ => none)

/-- How many distinct on-disk library identities are not yet recorded for
machine `m`: the decreasing measure of the depth-first walk. -/
def missingCount (fs : FS) (s : Symbols) (m : Nat) : Nat :=
  ((fsBaseNames fs).dedup.filter (fun n => !hasLibrary s n m)).length

/-! ## Association-list lemmas -/

theorem alistGet_alistSet {α β : Type} [DecidableEq α]
    (l : List (α × β)) (k : α) (v : β) (k' : α) :
    alistGet (alistSet l k v) k' = if k = k' then some v else alistGet l k' := by
  induction l with
  | nil =>
    by_cases h : k = k' <;> simp [alistSet, alistGet, h]
  | cons hd tl ih =>
    obtain ⟨a, b⟩ := hd
    by_cases hak : a = k
    · subst hak
      by_cases hk' : a = k' <;> simp [alistSet, alistGet, hk']
    · by_cases hk' : a = k'
      · subst hk'
        have hka : ¬a = k := hak
        have hka' : ¬k = a := fun h => hak h.symm
        simp [alistSet, alistGet, hka, hka']
      · by_cases hkk' : k = k'
        · subst hkk'
          simp [alistSet, alistGet, hak, hk', ih]
        · simp [alistSet, alistGet, hak, hk', hkk', ih]

theorem alistGet_mem {α β : Type} [DecidableEq α]
    {l : List (α × β)} {k : α} {v : β} (h : alistGet l k = some v) : (k, v) ∈ l := by
  induction l with
  | nil => simp [alistGet] at h
  | cons hd tl ih =>
    obtain ⟨a, b⟩ := hd
    by_cases hak : a = k
    · subst hak
      simp [alistGet] at h
      subst h
      exact List.mem_cons_self _ _
    · simp [alistGet, hak] at h
      exact List.mem_cons_of_mem _ (ih h)

/-! ## Store-operation lemmas -/

theorem hasLibrary_isSome (s : Symbols) (n : String) (m : Nat) :
    hasLibrary s n m = (lookupBucket s m n).isSome := by
  unfold hasLibrary lookupBucket
  cases alistGet s m <;> simp

theorem lookupBucket_ensureMachine (s : Symbols) (m m' : Nat) (n : String) :
    lookupBucket (ensureMachine s m) m' n = lookupBucket s m' n := by
  unfold ensureMachine
  split
  · rename_i h
    unfold lookupBucket
    rw [alistGet_alistSet]
    by_cases hm : m = m'
    · subst hm; simp [h, alistGet]
    · rw [if_neg hm]
  · rfl

theorem machineHas_ensureMachine_self (s : Symbols) (m : Nat) :
    machineHas (ensureMachine s m) m = true := by
  unfold ensureMachine
  split
  · simp [machineHas, alistGet_alistSet]
  · rename_i mp h
    simp [machineHas, h]

theorem machineHas_ensureMachine (s : Symbols) (m m' : Nat)
    (h : machineHas s m' = true) : machineHas (ensureMachine s m) m' = true := by
  unfold ensureMachine
  split
  · by_cases hmm : m = m'
    · subst hmm; simp [machineHas, alistGet_alistSet]
    · simpa [machineHas, alistGet_alistSet, hmm] using h
  · exact h

theorem machineHas_initBucket (s : Symbols) (m : Nat) (name : String) (m' : Nat) :
    machineHas (initBucket s m name) m' = machineHas s m' := by
  unfold initBucket
  split
  · rfl
  · rename_i mp h
    by_cases hmm : m = m'
    · subst hmm; simp [machineHas, alistGet_alistSet, h]
    · simp [machineHas, alistGet_alistSet, hmm]

theorem machineHas_storeSymbol (s : Symbols) (m : Nat) (name y : String) (m' : Nat) :
    machineHas (storeSymbol s m name y) m' = machineHas s m' := by
  unfold storeSymbol
  split
  · rfl
  · rename_i mp hm
    split
    · rfl
    · rename_i b hb
      by_cases hmm : m = m'
      · subst hmm; simp [machineHas, alistGet_alistSet, hm]
      · simp [machineHas, alistGet_alistSet, hmm]

theorem lookupBucket_initBucket_self (s : Symbols) (m : Nat) (name : String)
    (h : machineHas s m = true) :
    lookupBucket (initBucket s m name) m name = some [] := by
  unfold machineHas at h
  obtain ⟨mp, hmp⟩ := Option.isSome_iff_exists.mp h
  unfold initBucket
  rw [hmp]
  simp [lookupBucket, alistGet_alistSet, alistGet]

theorem lookupBucket_initBucket_ne (s : Symbols) (m : Nat) (name : String)
    (m' : Nat) (n' : String) (h : ¬(m' = m ∧ n' = name)) :
    lookupBucket (initBucket s m name) m' n' = lookupBucket s m' n' := by
  unfold initBucket
  split
  · rfl
  · rename_i mp hm
    by_cases hmm : m = m'
    · subst hmm
      have hn : ¬(name = n') := fun hn => h ⟨rfl, hn.symm⟩
      simp [lookupBucket, alistGet_alistSet, hm, hn]
    · simp [lookupBucket, alistGet_alistSet, hmm]

theorem lookupBucket_storeSymbol_ne (s : Symbols) (m : Nat) (name y : String)
    (m' : Nat) (n' : String) (h : ¬(m' = m ∧ n' = name)) :
    lookupBucket (storeSymbol s m name y) m' n' = lookupBucket s m' n' := by
  unfold storeSymbol
  split
  · rfl
  · rename_i mp hm
    split
    · rfl
    · rename_i b hb
      by_cases hmm : m = m'
      · subst hmm
        have hn : ¬(name = n') := fun hn => h ⟨rfl, hn.symm⟩
        simp [lookupBucket, alistGet_alistSet, hm, hn]
      · simp [lookupBucket, alistGet_alistSet, hmm]

theorem lookupBucket_storeSymbol_self (s : Symbols) (m : Nat) (name y : String)
    (b : Bucket) (h : lookupBucket s m name = some b) :
    lookupBucket (storeSymbol s m name y) m name = some (insertName b y) := by
  unfold lookupBucket at h
  unfold storeSymbol
  split
  · rename_i hm
    rw [hm] at h
    exact absurd h (by simp)
  · rename_i mp hm
    rw [hm] at h
    change alistGet mp name = some b at h
    split
    · rename_i hb
      rw [h] at hb
      exact absurd hb (by simp)
    · rename_i b' hb
      rw [h] at hb
      obtain rfl : b = b' := by injection hb
      simp [lookupBucket, alistGet_alistSet]

/-! ## `recordFile` lemmas -/

theorem mem_insertName (b : Bucket) (y x : String) :
    x ∈ insertName b y ↔ x ∈ b ∨ x = y := by
  unfold insertName
  by_cases h : y ∈ b
  · simp only [if_pos h]
    constructor
    · exact Or.inl
    · rintro (hx | rfl)
      · exact hx
      · exact h
  · simp [if_neg h]

theorem lookupBucket_fold_storeSymbol_self (syms : List String) (s : Symbols)
    (m : Nat) (name : String) (b : Bucket) (h : lookupBucket s m name = some b) :
    lookupBucket (syms.foldl (fun acc symName => storeSymbol acc m name symName) s)
        m name = some (syms.foldl insertName b) := by
  induction syms generalizing s b with
  | nil => exact h
  | cons y rest ih =>
    simp only [List.foldl_cons]
    exact ih _ _ (lookupBucket_storeSymbol_self s m name y b h)

theorem lookupBucket_fold_storeSymbol_ne (syms : List String) (s : Symbols)
    (m : Nat) (name : String) (m' : Nat) (n' : String) (h : ¬(m' = m ∧ n' = name)) :
    lookupBucket (syms.foldl (fun acc symName => storeSymbol acc m name symName) s)
        m' n' = lookupBucket s m' n' := by
  induction syms generalizing s with
  | nil => rfl
  | cons y rest ih =>
    simp only [List.foldl_cons]
    rw [ih _, lookupBucket_storeSymbol_ne s m name y m' n' h]

theorem machineHas_fold_storeSymbol (syms : List String) (s : Symbols)
    (m : Nat) (name : String) (m' : Nat) :
    machineHas (syms.foldl (fun acc symName => storeSymbol acc m name symName) s) m'
      = machineHas s m' := by
  induction syms generalizing s with
  | nil => rfl
  | cons y rest ih =>
    simp only [List.foldl_cons]
    rw [ih _, machineHas_storeSymbol]

theorem recordFile_nil (s : Symbols) (m : Nat) (name : String) :
    recordFile s m name [] = ensureMachine s m := rfl

theorem mem_foldl_insertName (syms : List String) (b : Bucket) (x : String) :
    x ∈ syms.foldl insertName b ↔ x ∈ b ∨ x ∈ syms := by
  induction syms generalizing b with
  | nil => simp
  | cons y rest ih =>
    simp only [List.foldl_cons, ih, mem_insertName, List.mem_cons]
    tauto

theorem lookupBucket_recordFile_ne (s : Symbols) (m : Nat) (name : String)
    (syms : List String) (m' : Nat) (n' : String) (h : ¬(m' = m ∧ n' = name)) :
    lookupBucket (recordFile s m name syms) m' n' = lookupBucket s m' n' := by
  unfold recordFile
  rw [lookupBucket_fold_storeSymbol_ne _ _ _ _ _ _ h]
  by_cases hlen : syms.length > 0
  · rw [if_pos hlen, lookupBucket_initBucket_ne _ _ _ _ _ h, lookupBucket_ensureMachine]
  · rw [if_neg hlen, lookupBucket_ensureMachine]

theorem lookupBucket_recordFile_self (s : Symbols) (m : Nat) (name : String)
    (syms : List String) (h : syms ≠ []) :
    lookupBucket (recordFile s m name syms) m name
      = some (syms.foldl insertName []) := by
  have hlen : syms.length > 0 := List.length_pos.mpr h
  simp only [recordFile]
  rw [if_pos hlen]
  exact lookupBucket_fold_storeSymbol_self _ _ _ _ _
    (lookupBucket_initBucket_self _ _ _ (machineHas_ensureMachine_self s m))

theorem machineHas_recordFile_self (s : Symbols) (m : Nat) (name : String)
    (syms : List String) : machineHas (recordFile s m name syms) m = true := by
  unfold recordFile
  rw [machineHas_fold_storeSymbol]
  by_cases hlen : syms.length > 0
  · rw [if_pos hlen, machineHas_initBucket]
    exact machineHas_ensureMachine_self s m
  · rw [if_neg hlen]
    exact machineHas_ensureMachine_self s m

theorem machineHas_recordFile (s : Symbols) (m : Nat) (name : String)
    (syms : List String) (m' : Nat) (h : machineHas s m' = true) :
    machineHas (recordFile s m name syms) m' = true := by
  unfold recordFile
  rw [machineHas_fold_storeSymbol]
  by_cases hlen : syms.length > 0
  · rw [if_pos hlen, machineHas_initBucket]
    exact machineHas_ensureMachine s m m' h
  · rw [if_neg hlen]
    exact machineHas_ensureMachine s m m' h

theorem hasLibrary_recordFile (s : Symbols) (m : Nat) (name : String)
    (syms : List String) (n' : String) (m' : Nat) (h : hasLibrary s n' m' = true) :
    hasLibrary (recordFile s m name syms) n' m' = true := by
  rw [hasLibrary_isSome] at h ⊢
  by_cases hk : m' = m ∧ n' = name
  · obtain ⟨rfl, rfl⟩ := hk
    rcases List.eq_nil_or_concat syms with rfl | ⟨_, _, rfl⟩
    · rw [recordFile_nil, lookupBucket_ensureMachine]
      exact h
    · rw [lookupBucket_recordFile_self _ _ _ _ (by simp)]
      rfl
  · rw [lookupBucket_recordFile_ne _ _ _ _ _ _ hk]
    exact h

theorem hasLibrary_recordFile_self (s : Symbols) (m : Nat) (name : String)
    (syms : List String) (h : syms ≠ []) :
    hasLibrary (recordFile s m name syms) name m = true := by
  rw [hasLibrary_isSome, lookupBucket_recordFile_self _ _ _ _ h]
  rfl

/-! ## Monotonicity of the walk -/

/-- Store growth: machine partitions persist and recorded identities stay
recorded (their buckets may in principle be replaced; identity never drops). -/
def StoreLE (s s' : Symbols) : Prop :=
  (∀ m, machineHas s m = true → machineHas s' m = true) ∧
  (∀ n m, hasLibrary s n m = true → hasLibrary s' n m = true)

theorem storeLE_refl (s : Symbols) : StoreLE s s :=
  ⟨fun _ h => h, fun _ _ h => h⟩

theorem storeLE_trans {s1 s2 s3 : Symbols} (h1 : StoreLE s1 s2)
    (h2 : StoreLE s2 s3) : StoreLE s1 s3 :=
  ⟨fun m h => h2.1 m (h1.1 m h), fun n m h => h2.2 n m (h1.2 n m h)⟩

theorem recordFile_storeLE (s : Symbols) (m : Nat) (name : String)
    (syms : List String) : StoreLE s (recordFile s m name syms) :=
  ⟨fun m' h => machineHas_recordFile s m name syms m' h,
   fun n' m' h => hasLibrary_recordFile s m name syms n' m' h⟩

theorem scanLibs_storeLE
    (scan : String → ELFData → Symbols → Option (Except ScanError Symbols))
    (hscan : ∀ p f s0 s0', scan p f s0 = some (.ok s0') → StoreLE s0 s0')
    (fs : FS) (dirs : List String) (file : ELFData) :
    ∀ libs s s', scanLibs scan fs dirs file libs s = some (.ok s') → StoreLE s s' := by
  intro libs
  induction libs with
  | nil =>
    intro s s' h
    unfold scanLibs at h
    obtain rfl : s = s' := by
      injection h with h'; injection h'
    exact storeLE_refl s
  | cons l rest ih =>
    intro s s' h
    simp only [scanLibs] at h
    split at h
    · exact ih s s' h
    · split at h
      · exact absurd h (by simp)
      · rename_i res lib libPath hloc
        split at h
        · exact absurd h (by simp)
        · exact absurd h (by simp)
        · rename_i s1 hrec
          exact storeLE_trans (hscan _ _ _ _ hrec) (ih s1 s' h)

theorem scanELF_storeLE (fs : FS) (dirs : List String) :
    ∀ fuel path file s s',
      scanELF fs dirs fuel path file s = some (.ok s') → StoreLE s s' := by
  intro fuel
  induction fuel with
  | zero =>
    intro path file s s' h
    exact absurd h (by simp [scanELF])
  | succ n ih =>
    intro path file s s' h
    simp only [scanELF] at h
    split at h
    · exact absurd h (by simp)
    · exact absurd h (by simp)
    · rename_i s2 hlibs
      split at h
      · exact absurd h (by simp)
      · have hs : s2 = s' := by
          injection h with h1; injection h1
        subst hs
        exact storeLE_trans (recordFile_storeLE _ _ _ _)
          (scanLibs_storeLE _ (fun p f s0 s0' hp => ih p f s0 s0' hp) fs dirs file
            file.importedLibraries _ _ hlibs)

/-! ## Library Locator lemmas -/

theorem locateLibraryPaths_mem (fs : FS) (dirs : List String) (l p : String)
    (h : p ∈ locateLibraryPaths fs dirs l) :
    ∃ dir ∈ dirs, p = joinPath dir l ∧ statRegular fs p = true := by
  induction dirs with
  | nil => simp [locateLibraryPaths] at h
  | cons d rest ih =>
    simp only [locateLibraryPaths] at h
    by_cases hst : statRegular fs (joinPath d l) = true
    · rw [if_pos hst] at h
      rcases List.mem_cons.mp h with rfl | h'
      · exact ⟨d, List.mem_cons_self _ _, rfl, hst⟩
      · obtain ⟨dir, hd, hp, hr⟩ := ih h'
        exact ⟨dir, List.mem_cons_of_mem _ hd, hp, hr⟩
    · rw [if_neg hst] at h
      obtain ⟨dir, hd, hp, hr⟩ := ih h
      exact ⟨dir, List.mem_cons_of_mem _ hd, hp, hr⟩

theorem elfOpen_some {fs : FS} {p : String} {d : ELFData}
    (h : elfOpen fs p = some d) : alistGet fs p = some (Entry.elfFile d) := by
  unfold elfOpen at h
  split at h
  · rename_i d' he
    injection h with h1
    rw [he, h1]
  · exact absurd h (by simp)

theorem locateFrom_ok (fs : FS) (file : ELFData) (l : String) :
    ∀ ps t p, locateFrom fs file l ps = .ok (t, p) →
      p ∈ ps ∧ elfOpen fs p = some t ∧ t.machine = file.machine := by
  intro ps
  induction ps with
  | nil =>
    intro t p h
    exact absurd h (by simp [locateFrom])
  | cons q rest ih =>
    intro t p h
    simp only [locateFrom] at h
    split at h
    · obtain ⟨hm, he, hmach⟩ := ih t p h
      exact ⟨List.mem_cons_of_mem _ hm, he, hmach⟩
    · rename_i test hopen
      split at h
      · obtain ⟨hm, he, hmach⟩ := ih t p h
        exact ⟨List.mem_cons_of_mem _ hm, he, hmach⟩
      · rename_i hmach
        have h1 : (test, q) = (t, p) := by injection h
        have ht : test = t := congrArg Prod.fst h1
        have hq : q = p := congrArg Prod.snd h1
        subst ht
        subst hq
        exact ⟨List.mem_cons_self _ _, hopen, not_not.mp hmach⟩

theorem locateLibrary_ok (fs : FS) (dirs : List String) (l : String)
    (file : ELFData) (t : ELFData) (p : String)
    (h : locateLibrary fs dirs l file = .ok (t, p)) :
    elfOpen fs p = some t ∧ t.machine = file.machine ∧
      ∃ dir ∈ dirs, p = joinPath dir l := by
  obtain ⟨hm, he, hmach⟩ := locateFrom_ok fs file l _ t p h
  obtain ⟨dir, hd, hp, _⟩ := locateLibraryPaths_mem fs dirs l p hm
  exact ⟨he, hmach, dir, hd, hp⟩

/-! ## Basenames of located candidates -/

theorem takeWhile_all_append {α : Type} (p : α → Bool) (xs ys : List α)
    (h : ∀ x ∈ xs, p x = true) :
    List.takeWhile p (xs ++ ys) = xs ++ List.takeWhile p ys := by
  induction xs with
  | nil => simp
  | cons a t ih =>
    have ha : p a = true := h a (List.mem_cons_self a t)
    rw [List.cons_append, List.takeWhile_cons, if_pos ha,
      ih (fun x hx => h x (List.mem_cons_of_mem a hx))]
    rfl

/-- A located candidate `dir/soname` has the soname as its basename, for any
well-formed soname. -/
theorem baseName_joinPath (dir l : String) (h : validSoname l) :
    baseName (joinPath dir l) = l := by
  obtain ⟨hne, hsl⟩ := h
  have hld : l.data ≠ [] := by
    intro hd
    apply hne
    have : String.mk l.data = String.mk [] := by rw [hd]
    exact this
  have hdata : (joinPath dir l).data = dir.data ++ '/' :: l.data := by
    unfold joinPath
    rw [String.data_append, String.data_append]
    simp
  unfold baseName
  rw [hdata]
  unfold baseNameAux
  rw [if_neg (by simp)]
  have hrev : (dir.data ++ '/' :: l.data).reverse
      = l.data.reverse ++ '/' :: dir.data.reverse := by
    simp
  obtain ⟨c, t, hct⟩ := List.exists_cons_of_ne_nil
    (show l.data.reverse ≠ [] by simp [hld])
  have hcl : c ∈ l.data := by
    rw [← List.mem_reverse, hct]
    exact List.mem_cons_self _ _
  have hc : ¬(c = '/') := fun hcc => hsl (hcc ▸ hcl)
  simp only [hrev, hct, List.cons_append, List.dropWhile_cons]
  have hcb : ¬(decide (c = '/') = true) := by simpa using hc
  rw [if_neg hcb]
  rw [if_neg (by simp)]
  have hall : ∀ x ∈ c :: t, (fun ch => decide (¬ch = '/')) x = true := by
    intro x hx
    have : x ∈ l.data := by
      rw [← List.mem_reverse, hct]
      exact hx
    simp only [decide_eq_true_eq]
    exact fun hxc => hsl (hxc ▸ this)
  rw [show (c :: (t ++ '/' :: dir.data.reverse))
      = (c :: t) ++ '/' :: dir.data.reverse from rfl]
  rw [takeWhile_all_append _ _ _ hall]
  rw [List.takeWhile_cons, if_neg (by simp)]
  rw [List.append_nil, ← hct, List.reverse_reverse]

/-! ## Wellformedness of the filesystem -/

theorem goodFS_elf {fs : FS} {p : String} {d : ELFData} (hg : goodFS fs)
    (h : alistGet fs p = some (Entry.elfFile d)) :
    d.dynamicSymbols ≠ [] ∧ ∀ l ∈ d.importedLibraries, validSoname l :=
  hg (p, Entry.elfFile d) (alistGet_mem h)

theorem fsBaseNames_mem {fs : FS} {p : String} {d : ELFData}
    (h : alistGet fs p = some (Entry.elfFile d)) :
    baseName p ∈ fsBaseNames fs := by
  unfold fsBaseNames
  exact List.mem_filterMap.mpr ⟨(p, Entry.elfFile d), alistGet_mem h, rfl⟩

/-! ## The resolution loop -/

theorem resolveAll_ok (s : Symbols) (m : Nat) :
    ∀ syms u, resolveAll s m syms = .ok u →
      ∀ sym ∈ syms, resolveSymbol s m sym = true := by
  intro syms
  induction syms with
  | nil =>
    intro u _ sym hs
    cases hs
  | cons a t ih =>
    intro u h sym hs
    simp only [resolveAll] at h
    split at h
    · rename_i hres
      rcases List.mem_cons.mp hs with rfl | ht
      · exact hres
      · exact ih u h sym ht
    · exact absurd h (by simp)

/-! ## The decreasing measure -/

theorem length_filter_le_of_imp {α : Type} (xs : List α) (p q : α → Bool)
    (h : ∀ x ∈ xs, p x = true → q x = true) :
    (xs.filter p).length ≤ (xs.filter q).length := by
  induction xs with
  | nil => simp
  | cons a t ih =>
    have iht := ih (fun x hx => h x (List.mem_cons_of_mem _ hx))
    by_cases hp : p a = true
    · have hq : q a = true := h a (List.mem_cons_self _ _) hp
      simp only [List.filter_cons, hp, hq, if_pos]
      simpa using iht
    · by_cases hq : q a = true <;>
        simp only [List.filter_cons, hp, hq] <;> simp <;> omega

theorem length_filter_lt {α : Type} (xs : List α) (p q : α → Bool) (x : α)
    (hx : x ∈ xs) (hpx : p x = true) (hqx : q x = false)
    (h : ∀ y ∈ xs, q y = true → p y = true) :
    (xs.filter q).length < (xs.filter p).length := by
  induction xs with
  | nil => cases hx
  | cons a t ih =>
    rcases List.mem_cons.mp hx with rfl | hxt
    · have hle := length_filter_le_of_imp t q p
        (fun y hy => h y (List.mem_cons_of_mem _ hy))
      simp only [List.filter_cons, hpx, hqx]
      simp only [Bool.false_eq_true, if_false, if_pos]
      simpa using Nat.lt_succ_of_le hle
    · have ih' := ih hxt (fun y hy hq => h y (List.mem_cons_of_mem _ hy) hq)
      by_cases hqa : q a = true
      · have hpa := h a (List.mem_cons_self _ _) hqa
        simp only [List.filter_cons, hqa, hpa, if_pos]
        simpa using ih'
      · by_cases hpa : p a = true <;>
          simp only [List.filter_cons, hqa, hpa] <;> simp <;> omega

theorem missingCount_le (fs : FS) {s s' : Symbols} (m : Nat)
    (h : ∀ n, hasLibrary s n m = true → hasLibrary s' n m = true) :
    missingCount fs s' m ≤ missingCount fs s m := by
  unfold missingCount
  apply length_filter_le_of_imp
  intro n _ hn
  simp only [Bool.not_eq_true'] at hn ⊢
  by_cases hs : hasLibrary s n m = true
  · exact absurd (h n hs) (by simp [hn])
  · simpa using hs

theorem missingCount_lt (fs : FS) {s s' : Symbols} (m : Nat) (l : String)
    (hmem : l ∈ fsBaseNames fs) (hl : hasLibrary s l m = false)
    (hl' : hasLibrary s' l m = true)
    (h : ∀ n, hasLibrary s n m = true → hasLibrary s' n m = true) :
    missingCount fs s' m < missingCount fs s m := by
  unfold missingCount
  apply length_filter_lt _ _ _ l (List.mem_dedup.mpr hmem)
  · simp [hl]
  · simp [hl']
  · intro n _ hn
    simp only [Bool.not_eq_true'] at hn ⊢
    by_cases hs : hasLibrary s n m = true
    · exact absurd (h n hs) (by simp [hn])
    · simpa using hs

/-! ## Termination of the depth-first walk -/

/-- The import loop cannot exhaust its fuel while fewer distinct library
identities than the fuel are still missing: every recursion step immediately
records one more missing on-disk identity. -/
theorem scanLibs_total (fs : FS) (dirs : List String) (hg : goodFS fs)
    (file : ELFData) (n : Nat)
    (hscan : ∀ path' file' s0, (∀ l ∈ file'.importedLibraries, validSoname l) →
      missingCount fs
          (recordFile s0 file'.machine (baseName path') file'.dynamicSymbols)
          file'.machine < n →
      scanELF fs dirs n path' file' s0 ≠ none) :
    ∀ libs s, (∀ l ∈ libs, validSoname l) →
      missingCount fs s file.machine ≤ n →
      scanLibs (scanELF fs dirs n) fs dirs file libs s ≠ none := by
  intro libs
  induction libs with
  | nil =>
    intro s _ _
    simp [scanLibs]
  | cons l rest ih =>
    intro s hv hm
    simp only [scanLibs]
    split
    · exact ih s (fun x hx => hv x (List.mem_cons_of_mem _ hx)) hm
    · rename_i hl
      split
      · simp
      · rename_i res lib libPath hloc
        obtain ⟨hopen, hmach, dir, hdir, hpath⟩ :=
          locateLibrary_ok fs dirs l file lib libPath hloc
        have hvl : validSoname l := hv l (List.mem_cons_self _ _)
        have hbase : baseName libPath = l := by
          rw [hpath]
          exact baseName_joinPath dir l hvl
        obtain ⟨hexp, himp⟩ := goodFS_elf hg (elfOpen_some hopen)
        have hlf : hasLibrary s l lib.machine = false := by
          rw [hmach]
          simpa using hl
        have hrecmiss : missingCount fs
            (recordFile s lib.machine (baseName libPath) lib.dynamicSymbols)
            lib.machine < n := by
          rw [hmach]
          have hself : hasLibrary
              (recordFile s lib.machine (baseName libPath) lib.dynamicSymbols)
              l lib.machine = true := by
            rw [← hbase]
            exact hasLibrary_recordFile_self _ _ _ _ hexp
          have hfsb : l ∈ fsBaseNames fs := by
            rw [← hbase]
            exact fsBaseNames_mem (elfOpen_some hopen)
          have hlt := missingCount_lt fs lib.machine l hfsb hlf hself
            (fun n0 h0 => (recordFile_storeLE s lib.machine (baseName libPath)
              lib.dynamicSymbols).2 n0 lib.machine h0)
          rw [hmach] at hlt
          omega
        have hterm := hscan libPath lib s himp hrecmiss
        split
        · rename_i hnone
          exact absurd hnone hterm
        · simp
        · rename_i s1 hok
          apply ih s1 (fun x hx => hv x (List.mem_cons_of_mem _ hx))
          have hmono := scanELF_storeLE fs dirs n libPath lib s s1 hok
          have hle := missingCount_le fs file.machine
            (fun n0 h0 => hmono.2 n0 file.machine h0)
          omega

/-- If every ELF file on disk exports at least one symbol and declares only
well-formed sonames, the walk terminates: fuel exceeding the number of
yet-unrecorded on-disk identities suffices. -/
theorem scanELF_total (fs : FS) (dirs : List String) (hg : goodFS fs) :
    ∀ fuel path file s, (∀ l ∈ file.importedLibraries, validSoname l) →
      missingCount fs
          (recordFile s file.machine (baseName path) file.dynamicSymbols)
          file.machine < fuel →
      scanELF fs dirs fuel path file s ≠ none := by
  intro fuel
  induction fuel with
  | zero =>
    intro path file s _ hm
    exact absurd hm (Nat.not_lt_zero _)
  | succ n ih =>
    intro path file s hv hm
    have hloop : scanLibs (scanELF fs dirs n) fs dirs file file.importedLibraries
        (recordFile s file.machine (baseName path) file.dynamicSymbols) ≠ none :=
      scanLibs_total fs dirs hg file n
        (fun p' f' s0 hv' hm' => ih p' f' s0 hv' hm')
        file.importedLibraries _ hv (by omega)
    simp only [scanELF]
    split
    · rename_i hnone
      exact absurd hnone hloop
    · simp
    · rename_i s2 hlibs
      split <;> simp

/-! ## Buckets are never mutated once recorded -/

/-- Exact preservation: every bucket present in `s` is still present, with
identical contents, in `s'`. -/
def BucketPres (s s' : Symbols) : Prop :=
  ∀ m n b, lookupBucket s m n = some b → lookupBucket s' m n = some b

theorem bucketPres_refl (s : Symbols) : BucketPres s s := fun _ _ _ h => h

theorem bucketPres_trans {s1 s2 s3 : Symbols} (h1 : BucketPres s1 s2)
    (h2 : BucketPres s2 s3) : BucketPres s1 s3 :=
  fun m n b h => h2 m n b (h1 m n b h)

/-- Operation `recordFile` only writes the bucket of a not-yet-recorded identity (or
writes nothing at all when there are no exports), so every existing bucket
survives verbatim. -/
theorem bucketPres_recordFile (s : Symbols) (m : Nat) (name : String)
    (syms : List String) (h : hasLibrary s name m = false ∨ syms = []) :
    BucketPres s (recordFile s m name syms) := by
  intro m' n' b hb
  by_cases hk : m' = m ∧ n' = name
  · obtain ⟨rfl, rfl⟩ := hk
    rcases h with h | rfl
    · rw [hasLibrary_isSome, hb] at h
      exact absurd h (by simp)
    · rw [recordFile_nil, lookupBucket_ensureMachine]
      exact hb
  · rw [lookupBucket_recordFile_ne _ _ _ _ _ _ hk]
    exact hb

theorem scanLibs_bucketPres (fs : FS) (dirs : List String) (hg : goodFS fs)
    (file : ELFData) (n : Nat)
    (hscan : ∀ p' f' s0 s0', (∀ l ∈ f'.importedLibraries, validSoname l) →
      (hasLibrary s0 (baseName p') f'.machine = false ∨ f'.dynamicSymbols = []) →
      scanELF fs dirs n p' f' s0 = some (.ok s0') → BucketPres s0 s0') :
    ∀ libs s s', (∀ l ∈ libs, validSoname l) →
      scanLibs (scanELF fs dirs n) fs dirs file libs s = some (.ok s') →
      BucketPres s s' := by
  intro libs
  induction libs with
  | nil =>
    intro s s' _ h
    unfold scanLibs at h
    obtain rfl : s = s' := by
      injection h with h1; injection h1
    exact bucketPres_refl s
  | cons l rest ih =>
    intro s s' hv h
    simp only [scanLibs] at h
    split at h
    · exact ih s s' (fun x hx => hv x (List.mem_cons_of_mem _ hx)) h
    · rename_i hl
      split at h
      · exact absurd h (by simp)
      · rename_i res lib libPath hloc
        split at h
        · exact absurd h (by simp)
        · exact absurd h (by simp)
        · rename_i s1 hok
          obtain ⟨hopen, hmach, dir, hdir, hpath⟩ :=
            locateLibrary_ok fs dirs l file lib libPath hloc
          have hvl : validSoname l := hv l (List.mem_cons_self _ _)
          have hbase : baseName libPath = l := by
            rw [hpath]
            exact baseName_joinPath dir l hvl
          obtain ⟨_, himp⟩ := goodFS_elf hg (elfOpen_some hopen)
          have hlf : hasLibrary s (baseName libPath) lib.machine = false := by
            rw [hbase, hmach]
            simpa using hl
          exact bucketPres_trans (hscan libPath lib s s1 himp (Or.inl hlf) hok)
            (ih s1 s' (fun x hx => hv x (List.mem_cons_of_mem _ hx)) h)

/-- Through a whole successful `scanELF` call, every bucket already recorded
survives verbatim, provided the scanned file's own identity is new (as it is
on every call the program makes: the root starts from an empty store and
recursive calls are guarded by `hasLibrary`). -/
theorem scanELF_bucketPres (fs : FS) (dirs : List String) (hg : goodFS fs) :
    ∀ fuel path file s s', (∀ l ∈ file.importedLibraries, validSoname l) →
      (hasLibrary s (baseName path) file.machine = false ∨
        file.dynamicSymbols = []) →
      scanELF fs dirs fuel path file s = some (.ok s') → BucketPres s s' := by
  intro fuel
  induction fuel with
  | zero =>
    intro path file s s' _ _ h
    exact absurd h (by simp [scanELF])
  | succ n ih =>
    intro path file s s' hv hroot h
    simp only [scanELF] at h
    split at h
    · exact absurd h (by simp)
    · exact absurd h (by simp)
    · rename_i s2 hlibs
      split at h
      · exact absurd h (by simp)
      · have hs : s2 = s' := by
          injection h with h1; injection h1
        subst hs
        exact bucketPres_trans
          (bucketPres_recordFile s file.machine (baseName path)
            file.dynamicSymbols (hroot.imp id id))
          (scanLibs_bucketPres fs dirs hg file n
            (fun p' f' s0 s0' hv' hr' hp => ih p' f' s0 s0' hv' hr' hp)
            file.importedLibraries _ _ hv hlibs)

/-! ## The machine partition always exists at resolution time -/

theorem resolveSymbolR_ne_noProvider (s : Symbols) (m : Nat)
    (h : machineHas s m = true) (sym : ImportedSymbol) :
    resolveSymbolR s m sym ≠ .noProviderForMachine := by
  obtain ⟨mp, hmp⟩ := Option.isSome_iff_exists.mp h
  unfold resolveSymbolR
  rw [hmp]
  split
  · rename_i heq
    simp at heq
  · split
    · split
      · simp
      · split <;> simp
    · split <;> simp

/-! ## Reduction lemmas for `resolveSymbol` -/

/-- With the machine partition present and an owning-library hint, the
resolver is exactly the two-level lookup of `store.go` lines 145–157. -/
theorem resolveSymbolR_hinted (s : Symbols) (m : Nat) (sym : ImportedSymbol)
    (mp : Partition) (hmp : alistGet s m = some mp) (hh : sym.library ≠ "") :
    resolveSymbolR s m sym =
      (match alistGet mp sym.library with
        | none => .unknownLibrary
        | some lib =>
          if sym.name ∈ lib then .resolved else .unknownSymbol) := by
  simp only [resolveSymbolR, hmp]
  rw [if_pos hh]

/-- Without a hint, the resolver is exactly the bucket sweep of
`store.go` lines 159–165. -/
theorem resolveSymbolR_unhinted (s : Symbols) (m : Nat) (sym : ImportedSymbol)
    (mp : Partition) (hmp : alistGet s m = some mp) (hh : sym.library = "") :
    resolveSymbolR s m sym =
      (if mp.any (fun p => decide (sym.name ∈ p.2)) then .resolved
        else .notFound) := by
  simp only [resolveSymbolR, hmp]
  rw [if_neg (by simp [hh])]

theorem alistGet_isSome_of_mem {α β : Type} [DecidableEq α]
    {l : List (α × β)} {k : α} {v : β} (h : (k, v) ∈ l) :
    (alistGet l k).isSome = true := by
  induction l with
  | nil => cases h
  | cons hd tl ih =>
    obtain ⟨a, b⟩ := hd
    by_cases hak : a = k
    · simp [alistGet, hak]
    · rcases List.mem_cons.mp h with heq | hm
      · exact absurd (congrArg Prod.fst heq).symm hak
      · simpa [alistGet, hak] using ih hm

/-! ## `locateFrom` only fails with the locate error -/

theorem locateFrom_error (fs : FS) (file : ELFData) (l : String) :
    ∀ ps e, locateFrom fs file l ps = .error e → e = .failedToLocate l := by
  intro ps
  induction ps with
  | nil =>
    intro e h
    simp only [locateFrom] at h
    injection h with h1
    exact h1.symm
  | cons q rest ih =>
    intro e h
    simp only [locateFrom] at h
    split at h
    · exact ih e h
    · split at h
      · exact ih e h
      · exact absurd h (by simp)

/-! ## Spec-side restatement of the Locator (for the refinement claim) -/

/-- The spec's acceptance test for one candidate path: exists as a regular
file, and opens as an ELF of exactly the requested machine. -/
def isGoodCandidate (fs : FS) (m : Nat) (p : String) : Bool :=
  statRegular fs p &&
    (match elfOpen fs p with
      | some t => decide (t.machine = m)
      | none => false)

/-- Definition `locateSpec` follows the words of spec §4.1: walk the ordered directory
list, join each directory with the soname, return the first candidate passing
`isGoodCandidate`, and fail only after exhausting all directories. -/
def locateSpec (fs : FS) (dirs : List String) (library : String)
    (inputFile : ELFData) : Except ScanError (ELFData × String) :=
  match (dirs.map (fun dir => joinPath dir library)).find?
      (isGoodCandidate fs inputFile.machine) with
  | none => .error (.failedToLocate library)
  | some p =>
    match elfOpen fs p with
    | some t => .ok (t, p)
    | none => .error (.failedToLocate library)

/-! ## Concrete configurations used by counterexamples and witnesses -/

/-- A one-directory search path. -/
def oneDir : List String := ["/usr/lib64"]

/-- Zero-export cycle: `liba.so` imports `libb.so` and vice versa; neither
exports a symbol, so neither is ever recorded as visited. -/
def cycA : ELFData := ⟨1, ["libb.so"], [], []⟩

/-- The partner of `cycA` in the zero-export cycle. -/
def cycB : ELFData := ⟨1, ["liba.so"], [], []⟩

/-- The filesystem holding the zero-export cycle. -/
def cycFS : FS :=
  [("/usr/lib64/liba.so", .elfFile cycA), ("/usr/lib64/libb.so", .elfFile cycB)]

/-- The same cycle, but both libraries export one symbol each. -/
def expA : ELFData := ⟨1, ["libb.so"], ["a_init"], []⟩

/-- The partner of `expA`. -/
def expB : ELFData := ⟨1, ["liba.so"], ["b_init"], []⟩

/-- The filesystem holding the exporting cycle. -/
def expFS : FS :=
  [("/usr/lib64/liba.so", .elfFile expA), ("/usr/lib64/libb.so", .elfFile expB)]

/-- Diamond: the root imports `libx.so` and `liby.so`, which both import
`libc2.so`. -/
def diaRoot : ELFData := ⟨1, ["libx.so", "liby.so"], [], [⟨"cfun", ""⟩]⟩

/-- Left arm of the diamond. -/
def diaX : ELFData := ⟨1, ["libc2.so"], ["xfun"], [⟨"cfun", "libc2.so"⟩]⟩

/-- Right arm of the diamond. -/
def diaY : ELFData := ⟨1, ["libc2.so"], ["yfun"], [⟨"cfun", "libc2.so"⟩]⟩

/-- The shared bottom of the diamond. -/
def diaC : ELFData := ⟨1, [], ["cfun"], []⟩

/-- The filesystem holding the diamond. -/
def diaFS : FS :=
  [("/usr/lib64/libx.so", .elfFile diaX), ("/usr/lib64/liby.so", .elfFile diaY),
   ("/usr/lib64/libc2.so", .elfFile diaC)]

/-- A root whose single imported symbol hints at a library it does not
import: the hint is never recorded. -/
def hintRootA : ELFData := ⟨1, [], [], [⟨"foo", "libz.so"⟩]⟩

/-- A root that does import the hinted library, which exports only `zfun`,
not the referenced `foo`. -/
def hintRootB : ELFData := ⟨1, ["libz.so"], [], [⟨"foo", "libz.so"⟩]⟩

/-- The filesystem providing `libz.so` (exports `zfun`). -/
def zFS : FS := [("/usr/lib64/libz.so", .elfFile ⟨1, [], ["zfun"], []⟩)]

/-- A wrong-machine `libz.so` (machine 2). -/
def wrongArch : ELFData := ⟨2, [], ["zfun"], []⟩

/-- A right-machine `libz.so` (machine 1). -/
def rightArch : ELFData := ⟨1, [], ["zfun"], []⟩

/-- Candidates for `libz.so`: wrong machine first, then a corrupt regular
file, then a right-machine library. -/
def mixFS : FS :=
  [("/usr/lib64/libz.so", .elfFile wrongArch), ("/usr/lib/libz.so", .notELF),
   ("/usr/lib32/libz.so", .elfFile rightArch)]

/-! ## The claims -/

/-- Both sides of the zero-export cycle exhaust any fuel from the state the
first entry leaves behind: the store never changes again, so the recursion
replays itself forever. -/
theorem cyc_spins : ∀ n,
    scanELF cycFS oneDir n "/usr/lib64/liba.so" cycA [(1, [])] = none ∧
    scanELF cycFS oneDir n "/usr/lib64/libb.so" cycB [(1, [])] = none := by
  intro n
  induction n with
  | zero => exact ⟨rfl, rfl⟩
  | succ n ih =>
    constructor
    · simp only [scanELF]
      rw [show recordFile [(1, [])] cycA.machine (baseName "/usr/lib64/liba.so")
            cycA.dynamicSymbols = [(1, [])] from rfl]
      rw [show cycA.importedLibraries = ["libb.so"] from rfl]
      simp only [scanLibs]
      rw [show hasLibrary [(1, [])] "libb.so" cycA.machine = false from rfl]
      rw [show locateLibrary cycFS oneDir "libb.so" cycA
            = .ok (cycB, "/usr/lib64/libb.so") from rfl]
      simp only [Bool.false_eq_true, if_false]
      rw [ih.2]
    · simp only [scanELF]
      rw [show recordFile [(1, [])] cycB.machine (baseName "/usr/lib64/libb.so")
            cycB.dynamicSymbols = [(1, [])] from rfl]
      rw [show cycB.importedLibraries = ["liba.so"] from rfl]
      simp only [scanLibs]
      rw [show hasLibrary [(1, [])] "liba.so" cycB.machine = false from rfl]
      rw [show locateLibrary cycFS oneDir "liba.so" cycB
            = .ok (cycA, "/usr/lib64/liba.so") from rfl]
      simp only [Bool.false_eq_true, if_false]
      rw [ih.1]

/-- C1 (counterexample): the claim "for every input file whose
imported-library graph contains a cycle, scan terminates" is false: a cycle
of two libraries with zero exported symbols is never marked visited (only
files with at least one export are recorded, and `hasLibrary` is the visited
check), so the walk recurses forever — no fuel makes the embedded recursion
return. -/
theorem C1_counterexample :
    ¬ ∃ fuel, (scanELF cycFS oneDir fuel "/usr/lib64/liba.so" cycA
      NewSymbolStore).isSome = true := by
  rintro ⟨fuel, hf⟩
  have h0 : scanELF cycFS oneDir fuel "/usr/lib64/liba.so" cycA
      NewSymbolStore = none := by
    cases fuel with
    | zero => rfl
    | succ n =>
      simp only [scanELF]
      rw [show recordFile NewSymbolStore cycA.machine
            (baseName "/usr/lib64/liba.so") cycA.dynamicSymbols
            = [(1, [])] from rfl]
      rw [show cycA.importedLibraries = ["libb.so"] from rfl]
      simp only [scanLibs]
      rw [show hasLibrary [(1, [])] "libb.so" cycA.machine = false from rfl]
      rw [show locateLibrary cycFS oneDir "libb.so" cycA
            = .ok (cycB, "/usr/lib64/libb.so") from rfl]
      simp only [Bool.false_eq_true, if_false]
      rw [(cyc_spins n).2]
  rw [h0] at hf
  simp at hf

/-- C1 (amended): when every ELF file in the search space exports at least
one symbol and every imported-library name is a plain soname (nonempty, no
separator), a library identity is recorded — hence marked visited — on entry
to its scan, before its own imports are walked, and the depth-first walk
terminates on every graph, cycles included: fuel exceeding the number of
still-unrecorded on-disk identities suffices. -/
theorem C1_mark_on_entry_terminates (fs : FS) (dirs : List String)
    (path : String) (file : ELFData) (s : Symbols) (hg : goodFS fs)
    (hv : ∀ l ∈ file.importedLibraries, validSoname l) :
    scanELF fs dirs
      (missingCount fs
        (recordFile s file.machine (baseName path) file.dynamicSymbols)
        file.machine + 1)
      path file s ≠ none :=
  scanELF_total fs dirs hg _ path file s hv (Nat.lt_succ_self _)

/-- C1 witness: the exporting two-cycle scans to completion with the fuel
bound the theorem provides. -/
theorem C1_mark_on_entry_terminates_witness :
    goodFS expFS ∧ (∀ l ∈ expA.importedLibraries, validSoname l) ∧
    scanELF expFS oneDir
      (missingCount expFS
        (recordFile NewSymbolStore expA.machine (baseName "/usr/lib64/liba.so")
          expA.dynamicSymbols)
        expA.machine + 1)
      "/usr/lib64/liba.so" expA NewSymbolStore ≠ none :=
  ⟨by decide, by decide,
    C1_mark_on_entry_terminates expFS oneDir "/usr/lib64/liba.so" expA
      NewSymbolStore (by decide) (by decide)⟩

/-- C2: with the machine partition present (as it is on every resolution the
program performs, see C10) and an owning-library hint, resolution takes the
`UnknownLibraryHint` branch exactly when the hinted identity was never
recorded under the file's machine, the `UnresolvedSymbol` branch exactly when
it was recorded but its bucket lacks the name, and succeeds exactly when the
hinted bucket contains the name. -/
theorem C2_hinted_resolution (s : Symbols) (m : Nat) (sym : ImportedSymbol)
    (hm : machineHas s m = true) (hh : sym.library ≠ "") :
    (resolveSymbolR s m sym = .unknownLibrary ↔
      hasLibrary s sym.library m = false) ∧
    (resolveSymbolR s m sym = .unknownSymbol ↔
      ∃ b, lookupBucket s m sym.library = some b ∧ sym.name ∉ b) ∧
    (resolveSymbolR s m sym = .resolved ↔
      ∃ b, lookupBucket s m sym.library = some b ∧ sym.name ∈ b) := by
  obtain ⟨mp, hmp⟩ := Option.isSome_iff_exists.mp hm
  have hr := resolveSymbolR_hinted s m sym mp hmp hh
  have hlb : lookupBucket s m sym.library = alistGet mp sym.library := by
    unfold lookupBucket
    rw [hmp]
  have hhl : hasLibrary s sym.library m = (alistGet mp sym.library).isSome := by
    rw [hasLibrary_isSome, hlb]
  rcases halg : alistGet mp sym.library with _ | lib
  · have hr' : resolveSymbolR s m sym = .unknownLibrary := by rw [hr, halg]
    refine ⟨?_, ?_, ?_⟩
    · rw [hr', hhl, halg]
      simp
    · rw [hr', hlb, halg]
      simp
    · rw [hr', hlb, halg]
      simp
  · have hr' : resolveSymbolR s m sym
        = (if sym.name ∈ lib then .resolved else .unknownSymbol) := by
      rw [hr, halg]
    by_cases hname : sym.name ∈ lib
    · have hr2 : resolveSymbolR s m sym = .resolved := by
        rw [hr', if_pos hname]
      refine ⟨?_, ?_, ?_⟩
      · rw [hr2, hhl, halg]
        simp
      · rw [hr2, hlb, halg]
        simp [hname]
      · rw [hr2, hlb, halg]
        simp [hname]
    · have hr2 : resolveSymbolR s m sym = .unknownSymbol := by
        rw [hr', if_neg hname]
      refine ⟨?_, ?_, ?_⟩
      · rw [hr2, hhl, halg]
        simp
      · rw [hr2, hlb, halg]
        simp [hname]
      · rw [hr2, hlb, halg]
        simp [hname]

/-- C2 witness: a store holding `libx.so → {foo}` resolves the hinted
reference `(foo, libx.so)`. -/
theorem C2_hinted_resolution_witness :
    machineHas [(1, [("libx.so", ["foo"])])] 1 = true ∧
    (ImportedSymbol.mk "foo" "libx.so").library ≠ "" ∧
    resolveSymbolR [(1, [("libx.so", ["foo"])])] 1 ⟨"foo", "libx.so"⟩
      = .resolved :=
  ⟨by decide, by decide,
    (C2_hinted_resolution [(1, [("libx.so", ["foo"])])] 1 ⟨"foo", "libx.so"⟩
      (by decide) (by decide)).2.2.mpr ⟨["foo"], rfl, by decide⟩⟩

/-- C3: an unhinted reference resolves true exactly when some bucket recorded
under the file's machine contains the name (which bucket provides it is not
observable in the returned boolean), and resolution always fails against a
store with no buckets under that machine — in particular the empty store. -/
theorem C3_unhinted_resolution (s : Symbols) (m : Nat) (sym : ImportedSymbol)
    (hh : sym.library = "") :
    (resolveSymbol s m sym = true ↔
      ∃ mp, alistGet s m = some mp ∧ ∃ p ∈ mp, sym.name ∈ p.2) ∧
    ((∀ lib, lookupBucket s m lib = none) → resolveSymbol s m sym = false) := by
  rcases hmp : alistGet s m with _ | mp
  · have hb : resolveSymbol s m sym = false := by
      have hn : resolveSymbolR s m sym = .noProviderForMachine := by
        simp only [resolveSymbolR, hmp]
      unfold resolveSymbol
      rw [hn]
    constructor
    · constructor
      · intro ht
        simp [hb] at ht
      · rintro ⟨mp, hmp', _⟩
        simp at hmp'
    · intro _
      exact hb
  · have hru := resolveSymbolR_unhinted s m sym mp hmp hh
    have hbool : resolveSymbol s m sym
        = mp.any (fun p => decide (sym.name ∈ p.2)) := by
      unfold resolveSymbol
      rw [hru]
      by_cases hany : mp.any (fun p => decide (sym.name ∈ p.2)) = true
      · rw [if_pos hany, hany]
      · have hf : mp.any (fun p => decide (sym.name ∈ p.2)) = false := by
          simpa using hany
        rw [if_neg hany, hf]
    constructor
    · rw [hbool, List.any_eq_true]
      constructor
      · rintro ⟨p, hp, hname⟩
        exact ⟨mp, rfl, p, hp, by simpa using hname⟩
      · rintro ⟨mp', hmp', p, hp, hname⟩
        injection hmp' with he
        subst he
        exact ⟨p, hp, by simpa using hname⟩
    · intro hall
      rw [hbool]
      by_contra hny
      have hany : mp.any (fun p => decide (sym.name ∈ p.2)) = true := by
        simpa using hny
      obtain ⟨p, hp, hname⟩ := List.any_eq_true.mp hany
      have h1 : lookupBucket s m p.1 = alistGet mp p.1 := by
        unfold lookupBucket
        rw [hmp]
      have h2 := alistGet_isSome_of_mem (l := mp) (k := p.1) (v := p.2)
        (by simpa using hp)
      have h3 := hall p.1
      rw [h1] at h3
      rw [h3] at h2
      simp at h2

/-- C3 witness: `foo` is found in the only bucket; the same reference fails
against the empty store. -/
theorem C3_unhinted_resolution_witness :
    (ImportedSymbol.mk "foo" "").library = "" ∧
    resolveSymbol [(1, [("libx.so", ["foo"])])] 1 ⟨"foo", ""⟩ = true :=
  ⟨rfl,
    (C3_unhinted_resolution [(1, [("libx.so", ["foo"])])] 1 ⟨"foo", ""⟩
      rfl).1.mpr
      ⟨[("libx.so", ["foo"])], rfl, ("libx.so", ["foo"]), by decide, by decide⟩⟩

/-- C4: the two-pass locate of the code (collect stat-regular candidates,
then open each) equals the spec's single ordered walk returning the first
candidate that is a regular file and opens as an ELF of exactly the requested
machine; only exhausting every directory yields the locate failure. -/
theorem C4_locate_first_match (fs : FS) (dirs : List String) (library : String)
    (file : ELFData) :
    locateLibrary fs dirs library file = locateSpec fs dirs library file := by
  induction dirs with
  | nil => rfl
  | cons d rest ih =>
    show locateFrom fs file library (locateLibraryPaths fs (d :: rest) library) = _
    simp only [locateLibraryPaths]
    by_cases hst : statRegular fs (joinPath d library) = true
    · rw [if_pos hst]
      rcases hop : elfOpen fs (joinPath d library) with _ | t
      · have hg : isGoodCandidate fs file.machine (joinPath d library) = false := by
          simp [isGoodCandidate, hop]
        have h1 : locateSpec fs (d :: rest) library file
            = locateSpec fs rest library file := by
          simp only [locateSpec, List.map_cons]
          rw [List.find?_cons_of_neg _ (by simp [hg])]
        rw [h1]
        simp only [locateFrom, hop]
        exact ih
      · by_cases hmm : t.machine ≠ file.machine
        · have hg : isGoodCandidate fs file.machine (joinPath d library) = false := by
            simp [isGoodCandidate, hop, hmm]
          have h1 : locateSpec fs (d :: rest) library file
              = locateSpec fs rest library file := by
            simp only [locateSpec, List.map_cons]
            rw [List.find?_cons_of_neg _ (by simp [hg])]
          rw [h1]
          simp only [locateFrom, hop]
          rw [if_pos hmm]
          exact ih
        · have heq : t.machine = file.machine := not_not.mp hmm
          have hg : isGoodCandidate fs file.machine (joinPath d library) = true := by
            simp [isGoodCandidate, hop, hst, heq]
          simp only [locateFrom, hop]
          rw [if_neg hmm]
          simp only [locateSpec, List.map_cons]
          rw [List.find?_cons_of_pos _ (by simp [hg])]
          simp [hop]
    · rw [if_neg hst]
      have hg : isGoodCandidate fs file.machine (joinPath d library) = false := by
        simp [isGoodCandidate, hst]
      have h1 : locateSpec fs (d :: rest) library file
          = locateSpec fs rest library file := by
        simp only [locateSpec, List.map_cons]
        rw [List.find?_cons_of_neg _ (by simp [hg])]
      rw [h1]
      exact ih

/-- C5 (counterexample): the claim that the error surfaced to the caller
carries the `UnknownLibraryHint` / `UnresolvedSymbol` distinction is false:
two scans whose single symbol fails for the two different reasons (per the
resolver's own branch, which only reaches stderr) return the identical error
value, which records nothing but the symbol name. -/
theorem C5_counterexample :
    scanELF zFS oneDir 5 "/root/appa" hintRootA NewSymbolStore
      = some (.error (.failedToResolveSymbol "foo")) ∧
    scanELF zFS oneDir 5 "/root/appb" hintRootB NewSymbolStore
      = some (.error (.failedToResolveSymbol "foo")) ∧
    resolveSymbolR [(1, [])] 1 ⟨"foo", "libz.so"⟩ = .unknownLibrary ∧
    resolveSymbolR [(1, [("libz.so", ["zfun"])])] 1 ⟨"foo", "libz.so"⟩
      = .unknownSymbol :=
  ⟨rfl, rfl, rfl, rfl⟩

/-- C5 (amended): the first imported symbol that fails to resolve aborts the
resolution loop at once — the symbols after it are never examined and cannot
influence the result — and the single returned error names the offending
symbol (and nothing more; the `UnknownLibraryHint` versus `UnresolvedSymbol`
distinction is emitted only on the diagnostic trace, not in the returned
error). -/
theorem C5_fail_fast_single_error (s : Symbols) (m : Nat)
    (pre : List ImportedSymbol) (sym : ImportedSymbol)
    (post : List ImportedSymbol)
    (h1 : ∀ x ∈ pre, resolveSymbol s m x = true)
    (h2 : resolveSymbol s m sym = false) :
    resolveAll s m (pre ++ sym :: post)
      = .error (.failedToResolveSymbol sym.name) := by
  induction pre with
  | nil =>
    simp [resolveAll, h2]
  | cons a t ih =>
    have ha := h1 a (List.mem_cons_self _ _)
    simp only [List.cons_append, resolveAll, ha, if_true]
    exact ih (fun x hx => h1 x (List.mem_cons_of_mem _ hx))

/-- C5 witness: with `liba.so → {x}` recorded, the list `[x, y, z]` of
unhinted references fails at `y`, never looking at `z`. -/
theorem C5_fail_fast_single_error_witness :
    (∀ x ∈ [ImportedSymbol.mk "x" ""], resolveSymbol [(1, [("liba.so", ["x"])])] 1 x = true) ∧
    resolveSymbol [(1, [("liba.so", ["x"])])] 1 ⟨"y", ""⟩ = false ∧
    resolveAll [(1, [("liba.so", ["x"])])] 1
      ([⟨"x", ""⟩] ++ ⟨"y", ""⟩ :: [⟨"z", ""⟩])
      = .error (.failedToResolveSymbol "y") :=
  ⟨by decide, by decide,
    C5_fail_fast_single_error [(1, [("liba.so", ["x"])])] 1 [⟨"x", ""⟩]
      ⟨"y", ""⟩ [⟨"z", ""⟩] (by decide) (by decide)⟩

/-- C6: a successful `scanELF` first runs the full recursive scan of every
imported library, producing exactly the store it finally returns, and only
then resolves the file's own imported symbols — every one of them — against
that very post-subtree store (resolution mutates nothing, so the store it
consulted is the returned one). -/
theorem C6_resolve_after_subtree (fs : FS) (dirs : List String) (fuel : Nat)
    (path : String) (file : ELFData) (s s' : Symbols)
    (h : scanELF fs dirs (fuel + 1) path file s = some (.ok s')) :
    scanLibs (scanELF fs dirs fuel) fs dirs file file.importedLibraries
        (recordFile s file.machine (baseName path) file.dynamicSymbols)
      = some (.ok s') ∧
    ∀ sym ∈ file.importedSymbols, resolveSymbol s' file.machine sym = true := by
  simp only [scanELF] at h
  split at h
  · exact absurd h (by simp)
  · exact absurd h (by simp)
  · rename_i s2 hlibs
    split at h
    · exact absurd h (by simp)
    · rename_i u hres
      have hs : s2 = s' := by
        injection h with h1; injection h1
      subst hs
      exact ⟨hlibs,
        fun sym hsym =>
          resolveAll_ok s2 file.machine file.importedSymbols u hres sym hsym⟩

/-- C6 witness: the diamond scan succeeds; its subtree scan yields the
returned store and the root's unhinted `cfun` resolves against it. -/
theorem C6_resolve_after_subtree_witness :
    scanELF diaFS oneDir (3 + 1) "/root/app" diaRoot NewSymbolStore
      = some (.ok [(1, [("libx.so", ["xfun"]), ("libc2.so", ["cfun"]),
        ("liby.so", ["yfun"])])]) ∧
    (scanLibs (scanELF diaFS oneDir 3) diaFS oneDir diaRoot
        diaRoot.importedLibraries
        (recordFile NewSymbolStore diaRoot.machine (baseName "/root/app")
          diaRoot.dynamicSymbols)
      = some (.ok [(1, [("libx.so", ["xfun"]), ("libc2.so", ["cfun"]),
        ("liby.so", ["yfun"])])]) ∧
    ∀ sym ∈ diaRoot.importedSymbols,
      resolveSymbol [(1, [("libx.so", ["xfun"]), ("libc2.so", ["cfun"]),
        ("liby.so", ["yfun"])])] diaRoot.machine sym = true) :=
  ⟨rfl,
    C6_resolve_after_subtree diaFS oneDir 3 "/root/app" diaRoot
      NewSymbolStore _ rfl⟩

/-- C7: under well-formed sonames and export-carrying libraries, an export
bucket recorded in the store survives a whole successful scan verbatim — it
is never mutated or replaced (re-encounters of the identity are skipped by
the visited check, which is the second conjunct: a library already recorded
for the machine is skipped by the import loop without rescanning). -/
theorem C7_bucket_recorded_once (fs : FS) (dirs : List String) (fuel : Nat)
    (path : String) (file : ELFData) (s s' : Symbols) (hg : goodFS fs)
    (hv : ∀ l ∈ file.importedLibraries, validSoname l)
    (hroot : hasLibrary s (baseName path) file.machine = false ∨
      file.dynamicSymbols = [])
    (hscan : scanELF fs dirs fuel path file s = some (.ok s')) :
    (∀ m n b, lookupBucket s m n = some b → lookupBucket s' m n = some b) ∧
    (∀ scan l rest s0, hasLibrary s0 l file.machine = true →
      scanLibs scan fs dirs file (l :: rest) s0
        = scanLibs scan fs dirs file rest s0) := by
  constructor
  · exact scanELF_bucketPres fs dirs hg fuel path file s s' hv hroot hscan
  · intro scan l rest s0 hl
    simp [scanLibs, hl]

/-- C7 witness: a pre-seeded bucket `libpre.so → {pre_init}` survives the
whole diamond scan (in which `libc2.so` is reached twice) unchanged. -/
theorem C7_bucket_recorded_once_witness :
    goodFS diaFS ∧ (∀ l ∈ diaRoot.importedLibraries, validSoname l) ∧
    (hasLibrary [(1, [("libpre.so", ["pre_init"])])] (baseName "/root/app")
        diaRoot.machine = false ∨ diaRoot.dynamicSymbols = []) ∧
    lookupBucket [(1, [("libpre.so", ["pre_init"]), ("libx.so", ["xfun"]),
        ("libc2.so", ["cfun"]), ("liby.so", ["yfun"])])] 1 "libpre.so"
      = some ["pre_init"] :=
  ⟨by decide, by decide, Or.inl (by decide),
    (C7_bucket_recorded_once diaFS oneDir 4 "/root/app" diaRoot
        [(1, [("libpre.so", ["pre_init"])])]
        [(1, [("libpre.so", ["pre_init"]), ("libx.so", ["xfun"]),
          ("libc2.so", ["cfun"]), ("liby.so", ["yfun"])])]
        (by decide) (by decide) (Or.inl (by decide)) rfl).1
      1 "libpre.so" ["pre_init"] rfl⟩

/-- C8: a freshly scanned identity gets an export bucket if and only if the
file exports at least one symbol; with zero exports the store's buckets are
untouched (so the file never satisfies the visited check nor provides
anything), and with exports the recorded bucket holds exactly the exported
names. -/
theorem C8_bucket_iff_exports (s : Symbols) (m : Nat) (name : String)
    (syms : List String) (h : hasLibrary s name m = false) :
    (hasLibrary (recordFile s m name syms) name m = true ↔ syms ≠ []) ∧
    (syms = [] → ∀ m' n',
      lookupBucket (recordFile s m name syms) m' n' = lookupBucket s m' n') ∧
    (syms ≠ [] → ∃ b, lookupBucket (recordFile s m name syms) m name = some b ∧
      ∀ x, x ∈ b ↔ x ∈ syms) := by
  refine ⟨⟨?_, ?_⟩, ?_, ?_⟩
  · intro hh
    intro hnil
    subst hnil
    rw [recordFile_nil, hasLibrary_isSome, lookupBucket_ensureMachine,
      ← hasLibrary_isSome, h] at hh
    cases hh
  · intro hne
    exact hasLibrary_recordFile_self s m name syms hne
  · rintro rfl m' n'
    rw [recordFile_nil, lookupBucket_ensureMachine]
  · intro hne
    refine ⟨syms.foldl insertName [], lookupBucket_recordFile_self s m name syms hne,
      fun x => ?_⟩
    rw [mem_foldl_insertName]
    simp

/-- C8 witness: recording `libq.so` with two exports creates its bucket with
exactly those names; recording it with none leaves the store's buckets
untouched. -/
theorem C8_bucket_iff_exports_witness :
    hasLibrary [(1, [])] "libq.so" 1 = false ∧
    ((hasLibrary (recordFile [(1, [])] 1 "libq.so" ["q1", "q2"]) "libq.so" 1
        = true ↔ ["q1", "q2"] ≠ ([] : List String)) ∧
    ((["q1", "q2"] : List String) = [] → ∀ m' n',
      lookupBucket (recordFile [(1, [])] 1 "libq.so" ["q1", "q2"]) m' n'
        = lookupBucket [(1, [])] m' n') ∧
    ((["q1", "q2"] : List String) ≠ [] →
      ∃ b, lookupBucket (recordFile [(1, [])] 1 "libq.so" ["q1", "q2"]) 1
          "libq.so" = some b ∧ ∀ x, x ∈ b ↔ x ∈ ["q1", "q2"])) :=
  ⟨by decide, C8_bucket_iff_exports [(1, [])] 1 "libq.so" ["q1", "q2"] (by decide)⟩

/-- C9: a candidate that stats as a regular file but fails to open as an ELF
is skipped silently — locating continues with the remaining directories
exactly as if the bad candidate were absent — and the locator's only error is
ever the `failed to locate` one: a parse failure during location is never
surfaced. -/
theorem C9_parse_failure_skipped :
    (∀ (fs : FS) (d : String) (rest : List String) (l : String)
        (file : ELFData), alistGet fs (joinPath d l) = some Entry.notELF →
      locateLibrary fs (d :: rest) l file = locateLibrary fs rest l file) ∧
    (∀ (fs : FS) (dirs : List String) (l : String) (file : ELFData)
        (e : ScanError), locateLibrary fs dirs l file = .error e →
      e = .failedToLocate l) := by
  constructor
  · intro fs d rest l file h
    have hst : statRegular fs (joinPath d l) = true := by
      simp [statRegular, h]
    have hop : elfOpen fs (joinPath d l) = none := by
      simp [elfOpen, h]
    show locateFrom fs file l (locateLibraryPaths fs (d :: rest) l) = _
    simp only [locateLibraryPaths]
    rw [if_pos hst]
    simp only [locateFrom, hop]
    rfl
  · intro fs dirs l file e h
    exact locateFrom_error fs file l _ e h

/-- C9 witness: the corrupt regular file at `/usr/lib/libz.so` is skipped and
the search continues to `/usr/lib32`. -/
theorem C9_parse_failure_skipped_witness :
    alistGet mixFS (joinPath "/usr/lib" "libz.so") = some Entry.notELF ∧
    locateLibrary mixFS ["/usr/lib", "/usr/lib32"] "libz.so" rightArch
      = locateLibrary mixFS ["/usr/lib32"] "libz.so" rightArch :=
  ⟨rfl,
    C9_parse_failure_skipped.1 mixFS "/usr/lib" ["/usr/lib32"] "libz.so"
      rightArch rfl⟩

/-- C10: the store the import loop hands to the resolution phase of `scanELF`
always carries the partition for the scanned file's machine (created by
`recordFile` before any recursion, and never dropped), so the resolver's
"No provider found for machine" branch is unreachable from `scanELF` for
every symbol it resolves. -/
theorem C10_machine_partition (fs : FS) (dirs : List String) (fuel : Nat)
    (path : String) (file : ELFData) (s s2 : Symbols)
    (h : scanLibs (scanELF fs dirs fuel) fs dirs file file.importedLibraries
        (recordFile s file.machine (baseName path) file.dynamicSymbols)
      = some (.ok s2)) :
    machineHas s2 file.machine = true ∧
    ∀ sym, resolveSymbolR s2 file.machine sym ≠ .noProviderForMachine := by
  have hmono := scanLibs_storeLE (scanELF fs dirs fuel)
    (fun p f s0 s0' hp => scanELF_storeLE fs dirs fuel p f s0 s0' hp)
    fs dirs file file.importedLibraries _ s2 h
  have hmh := hmono.1 file.machine
    (machineHas_recordFile_self s file.machine (baseName path)
      file.dynamicSymbols)
  exact ⟨hmh, fun sym => resolveSymbolR_ne_noProvider s2 file.machine hmh sym⟩

/-- C10 witness: the diamond's import loop yields a store whose machine-1
partition exists; no reference can hit the missing-machine branch there. -/
theorem C10_machine_partition_witness :
    (scanLibs (scanELF diaFS oneDir 3) diaFS oneDir diaRoot
        diaRoot.importedLibraries
        (recordFile NewSymbolStore diaRoot.machine (baseName "/root/app")
          diaRoot.dynamicSymbols)
      = some (.ok [(1, [("libx.so", ["xfun"]), ("libc2.so", ["cfun"]),
        ("liby.so", ["yfun"])])])) ∧
    machineHas [(1, [("libx.so", ["xfun"]), ("libc2.so", ["cfun"]),
        ("liby.so", ["yfun"])])] diaRoot.machine = true ∧
    ∀ sym, resolveSymbolR [(1, [("libx.so", ["xfun"]), ("libc2.so", ["cfun"]),
        ("liby.so", ["yfun"])])] diaRoot.machine sym
      ≠ .noProviderForMachine :=
  ⟨rfl,
    C10_machine_partition diaFS oneDir 3 "/root/app" diaRoot NewSymbolStore
      _ rfl⟩

end RuntimeAbiCheck
